import Mathlib

/-!
Verification of the 2D ray-casting demo (src/main.cpp).

Embedding conventions
- IEEE single-precision floats are idealised as real numbers (ℝ); the products and
  sums appearing in the program stay well within the exactly representable range for
  the concrete scenes considered, and every claim under study is a statement about
  the idealised geometry, not about rounding.
- The "no intersection" sentinel Point{+inf, +inf} returned by Ray::cast is modelled
  as Option.none; a genuine hit point p is Option.some p.  The distance to the
  sentinel, hypot(inf - ox, inf - oy) = +inf in the program, is modelled as the top
  element of WithTop ℝ, so that comparisons against it behave exactly like IEEE
  comparisons against +inf (inf < inf is false, any finite value < inf is true).
- C++ int conversions (static_cast<int> and implicit float-to-int argument
  conversion) truncate toward zero; truncToZero models this.
- The state-changing render loop is modelled by the list of drawRay invocations the
  sweep performs (angle and distance of each) and, for a single drawRay call, by the
  predicate describing which pixel writes its loop performs.
-/

noncomputable section

namespace RayCasting

open Classical

/-- Point structure of the program: a 2D position with real coordinates. -/
structure Point where
  x : ℝ
  y : ℝ

/-- Segment class of the program: a wall with endpoints (x1,y1) and (x2,y2). -/
structure Segment where
  x1 : ℝ
  y1 : ℝ
  x2 : ℝ
  y2 : ℝ

/-- Ray class of the program: an origin pos and a direction vector dir. -/
structure Ray where
  pos : Point
  dir : Point

/-- The Ray constructor Ray(x, y, angle): pos = (x,y), dir = (cos angle, sin angle). -/
def rayAt (x y angle : ℝ) : Ray :=
  ⟨⟨x, y⟩, ⟨Real.cos angle, Real.sin angle⟩⟩

/-- Determinant den of the 2×2 system in Ray::cast, literally
(x1-x2)*(y3-y4) - (y1-y2)*(x3-x4) with (x3,y3) = pos and (x4,y4) = pos + dir. -/
def den (r : Ray) (w : Segment) : ℝ :=
  (w.x1 - w.x2) * (r.pos.y - (r.pos.y + r.dir.y)) -
    (w.y1 - w.y2) * (r.pos.x - (r.pos.x + r.dir.x))

/-- Wall-local parameter t of Ray::cast:
t = ((x1-x3)*(y3-y4) - (y1-y3)*(x3-x4)) / den. -/
def tParam (r : Ray) (w : Segment) : ℝ :=
  ((w.x1 - r.pos.x) * (r.pos.y - (r.pos.y + r.dir.y)) -
    (w.y1 - r.pos.y) * (r.pos.x - (r.pos.x + r.dir.x))) / den r w

/-- Ray parameter u of Ray::cast:
u = -((x1-x2)*(y1-y3) - (y1-y2)*(x1-x3)) / den. -/
def uParam (r : Ray) (w : Segment) : ℝ :=
  -((w.x1 - w.x2) * (w.y1 - r.pos.y) - (w.y1 - w.y2) * (w.x1 - r.pos.x)) / den r w

/-- Ray::cast: if den = 0 return the sentinel; otherwise, if t ∈ [0,1] and u ≥ 0,
return the interpolated point on the wall, else the sentinel.  The sentinel
Point{+inf,+inf} is modelled by none. -/
def Ray.cast (r : Ray) (w : Segment) : Option Point :=
  if den r w = 0 then
    none
  else if 0 ≤ tParam r w ∧ tParam r w ≤ 1 ∧ 0 ≤ uParam r w then
    some ⟨w.x1 + tParam r w * (w.x2 - w.x1), w.y1 + tParam r w * (w.y2 - w.y1)⟩
  else
    none

/-- C++ truncation toward zero used by static_cast<int> and by implicit
float-to-int argument conversion. -/
def truncToZero (x : ℝ) : ℤ :=
  if 0 ≤ x then ⌊x⌋ else ⌈x⌉

/-- Scene::isPointOnSegment(int x, int y, wall): the cross product of
(x,y) - (x1,y1) with the wall direction must not have positive absolute value
(i.e. is exactly zero), and (x,y) must lie inside the wall's bounding box. -/
def isPointOnSegment (x y : ℤ) (w : Segment) : Prop :=
  ¬ (0 < |((x : ℝ) - w.x1) * (w.y2 - w.y1) - ((y : ℝ) - w.y1) * (w.x2 - w.x1)|) ∧
    ¬ ((x : ℝ) < min w.x1 w.x2 ∨ max w.x1 w.x2 < (x : ℝ) ∨
       (y : ℝ) < min w.y1 w.y2 ∨ max w.y1 w.y2 < (y : ℝ))

/-- The wall list built by the Scene constructor. -/
def sceneWalls : List Segment :=
  [⟨400, 400, 500, 500⟩,
   ⟨300, 100, 300, 300⟩,
   ⟨500, 600, 400, 500⟩,
   ⟨300, 300, 100, 300⟩,
   ⟨100, 300, 100, 100⟩,
   ⟨600, 150, 600, 450⟩,
   ⟨200, 450, 200, 150⟩]

/-- A point lies on a wall segment: it is the interpolation of the endpoints at
some parameter s in [0,1]. -/
def onWall (w : Segment) (p : Point) : Prop :=
  ∃ s : ℝ, 0 ≤ s ∧ s ≤ 1 ∧
    p = ⟨w.x1 + s * (w.x2 - w.x1), w.y1 + s * (w.y2 - w.y1)⟩

/-- The PI macro of the program. -/
def PI_CONST : ℝ := 3.14159265358979

/-- The ANGLE_STEP_DEG macro: angular step of the sweep, in degrees. -/
def ANGLE_STEP_DEG : ℝ := 0.05

/-- ANGLE_STEP_RAD computed in RayCaster::traceRays. -/
def ANGLE_STEP_RAD : ℝ := ANGLE_STEP_DEG * PI_CONST / 180

/-- NUM_RAYS computed in RayCaster::traceRays: static_cast<int>(360 / step). -/
def NUM_RAYS : ℕ := (⌊(360 : ℝ) / ANGLE_STEP_DEG⌋).toNat

/-- The SCREEN_WIDTH macro. -/
def SCREEN_WIDTH : ℤ := 800

/-- The SCREEN_HEIGHT macro. -/
def SCREEN_HEIGHT : ℤ := 600

/-- The decay constant k of Renderer::drawRay. -/
def kConst : ℝ := 0.005

/-- Real-valued hypot, the distance helper used by traceRays on finite points. -/
def hypot (a b : ℝ) : ℝ := Real.sqrt (a * a + b * b)

/-- Distance from the origin to a solver result, as computed by
hypot(intersection.x - originX, intersection.y - originY): the sentinel
Point{+inf,+inf} yields +inf (the top element), a hit yields its Euclidean
distance from the origin. -/
def hitDistance (ox oy : ℝ) : Option Point → WithTop ℝ
  | none => ⊤
  | some p => ((hypot (p.x - ox) (p.y - oy) : ℝ) : WithTop ℝ)

/-- Inner wall loop of RayCaster::traceRays for one ray: walk the wall list
carrying closestDistance; on each wall first test the (truncated) origin with
Scene::isPointOnSegment and return none (the early return aborting the whole
sweep) if it is on the wall; otherwise cast the ray and keep the distance if it
is strictly closer.  The program also tracks closestIntersection, but only the
distance flows into drawRay, so only the distance is carried here. -/
def traceRayWalls (r : Ray) (ox oy : ℝ) :
    List Segment → WithTop ℝ → Option (WithTop ℝ)
  | [], closest => some closest
  | w :: ws, closest =>
    if isPointOnSegment (truncToZero ox) (truncToZero oy) w then
      none
    else
      traceRayWalls r ox oy ws
        (if hitDistance ox oy (r.cast w) < closest then hitDistance ox oy (r.cast w)
         else closest)

/-- The angles enumerated by the outer loop of RayCaster::traceRays:
angle = i * ANGLE_STEP_RAD for i = 0, ..., NUM_RAYS - 1. -/
def sweepAngles : List ℝ :=
  (List.range NUM_RAYS).map fun i : ℕ => (i : ℝ) * ANGLE_STEP_RAD

/-- Outer loop of RayCaster::traceRays over a list of remaining angles: for each
angle build the ray, run the wall loop starting from an infinite closestDistance,
and on success record the (angle, closestDistance) pair handed to
Renderer::drawRay; the early return inside the wall loop ends the whole sweep. -/
def traceRaysGo (walls : List Segment) (ox oy : ℝ) : List ℝ → List (ℝ × WithTop ℝ)
  | [] => []
  | a :: rest =>
    match traceRayWalls (rayAt ox oy a) ox oy walls ⊤ with
    | none => []
    | some d => (a, d) :: traceRaysGo walls ox oy rest

/-- RayCaster::traceRays(originX, originY): the list of drawRay invocations
(angle and distance) the sweep performs, in order. -/
def traceRays (walls : List Segment) (ox oy : ℝ) : List (ℝ × WithTop ℝ) :=
  traceRaysGo walls ox oy sweepAngles

/-- Opacity of a beam pixel at distance d in Renderer::drawRay: exponential
decay exp(-k*d), clamped to [0,1], scaled by 255 and truncated to an 8-bit
alpha.  The clamp keeps the product within [0,255], so the Uint8 conversion is
plain truncation toward zero, i.e. the floor. -/
def alphaOf (d : ℝ) : ℕ :=
  (⌊max 0 (min 1 (Real.exp (-kConst * d))) * 255⌋).toNat

/-- Column targeted at step d of the drawRay loop: the loop starts at x1 and adds
cos(angle) * stepSize (stepSize = 1) after each write, and the write truncates
the float coordinate to int. -/
def drawRayX (x1 angle : ℝ) (d : ℕ) : ℤ :=
  truncToZero (x1 + d * Real.cos angle)

/-- Row targeted at step d of the drawRay loop. -/
def drawRayY (y1 angle : ℝ) (d : ℕ) : ℤ :=
  truncToZero (y1 + d * Real.sin angle)

/-- A condition at step d = 0, 1, 2, ... on which the drawRay loop stops before
writing the pixel of step d: the loop guard d <= distance fails, or the 8-bit
alpha is 0, or the target pixel fails the bounds test
drawX <= 0 || drawX >= SCREEN_WIDTH || drawY <= 0 || drawY >= SCREEN_HEIGHT. -/
def drawRayStepFails (x1 y1 angle : ℝ) (distance : WithTop ℝ) (d : ℕ) : Prop :=
  ¬ (((d : ℝ) : WithTop ℝ) ≤ distance) ∨
    alphaOf d = 0 ∨
    drawRayX x1 angle d ≤ 0 ∨ SCREEN_WIDTH ≤ drawRayX x1 angle d ∨
    drawRayY y1 angle d ≤ 0 ∨ SCREEN_HEIGHT ≤ drawRayY y1 angle d

/-- The drawRay loop writes the pixel of step d exactly when no step up to and
including d stopped the loop. -/
def drawRayWritesStep (x1 y1 angle : ℝ) (distance : WithTop ℝ) (d : ℕ) : Prop :=
  ∀ e, e ≤ d → ¬ drawRayStepFails x1 y1 angle distance e

/-- The set of pixels written by Renderer::drawRay(x1, y1, angle, distance). -/
def drawRayWritesPixel (x1 y1 angle : ℝ) (distance : WithTop ℝ) (p : ℤ × ℤ) : Prop :=
  ∃ d : ℕ, drawRayWritesStep x1 y1 angle distance d ∧
    p = (drawRayX x1 angle d, drawRayY y1 angle d)

/-- The spec's phrasing of the origin-on-wall test, on integer coordinates:
exactly collinear with the wall (cross product zero) and inside the wall's
bounding box. -/
def collinearInBox (x y : ℤ) (w : Segment) : Prop :=
  ((x : ℝ) - w.x1) * (w.y2 - w.y1) - ((y : ℝ) - w.y1) * (w.x2 - w.x1) = 0 ∧
    min w.x1 w.x2 ≤ (x : ℝ) ∧ (x : ℝ) ≤ max w.x1 w.x2 ∧
    min w.y1 w.y2 ≤ (y : ℝ) ∧ (y : ℝ) ≤ max w.y1 w.y2

/-- Exact containment of a real (untruncated) point on a wall: collinear and
inside the bounding box.  Used to express that a non-integer origin that is not
on any wall can still trigger the sweep abort after truncation. -/
def onSegmentReal (x y : ℝ) (w : Segment) : Prop :=
  (x - w.x1) * (w.y2 - w.y1) - (y - w.y1) * (w.x2 - w.x1) = 0 ∧
    min w.x1 w.x2 ≤ x ∧ x ≤ max w.x1 w.x2 ∧
    min w.y1 w.y2 ≤ y ∧ y ≤ max w.y1 w.y2

/-- Observable actions of one iteration of Application::render, as booleans:
whether clearTexture ran, whether the ray sweep and the wall outlines were drawn
into the pixel buffer, and whether endFrame presented the frame. -/
structure FrameActions where
  cleared : Bool
  raysDrawn : Bool
  wallsDrawn : Bool
  presented : Bool

/-- Renderer::beginFrame: clearTexture runs only when SDL_LockTexture succeeds;
on failure beginFrame logs and returns early, clearing nothing. -/
def beginFrameClears (lockOk : Bool) : Bool := lockOk

/-- Application::render: beginFrame, then unconditionally traceRays, drawWalls
and endFrame (which unlocks, copies and presents).  The lock result only
affects whether the buffer was cleared; nothing is skipped on failure. -/
def renderFrame (lockOk : Bool) : FrameActions :=
  ⟨beginFrameClears lockOk, true, true, true⟩

/-- C2: whenever the determinant of the 2×2 system is zero (ray parallel or
collinear to the wall), Ray::cast returns the no-intersection sentinel,
regardless of every other parameter. -/
theorem cast_parallel_none (r : Ray) (w : Segment) (h : den r w = 0) :
    r.cast w = none := by
  unfold Ray.cast
  rw [if_pos h]

/-- Witness for C2: a concrete horizontal ray parallel to a horizontal wall has
determinant zero and Ray::cast returns the sentinel. -/
theorem cast_parallel_none_example :
    den ⟨⟨5, 5⟩, ⟨1, 0⟩⟩ ⟨0, 0, 1, 0⟩ = 0 ∧
      Ray.cast ⟨⟨5, 5⟩, ⟨1, 0⟩⟩ ⟨0, 0, 1, 0⟩ = none := by
  constructor
  · simp [den]
  · exact cast_parallel_none _ _ (by simp [den])

/-- C3: with nonzero determinant, Ray::cast returns a (non-sentinel) hit point
exactly when t ∈ [0,1] (inclusive) and u ≥ 0, on success the point is the linear
interpolation of the wall's endpoints at parameter t, and hence every returned
point lies on the wall segment. -/
theorem cast_hit_iff (r : Ray) (w : Segment) (h : den r w ≠ 0) :
    (∀ p : Point, r.cast w = some p ↔
      (0 ≤ tParam r w ∧ tParam r w ≤ 1 ∧ 0 ≤ uParam r w ∧
        p = ⟨w.x1 + tParam r w * (w.x2 - w.x1), w.y1 + tParam r w * (w.y2 - w.y1)⟩)) ∧
    (∀ p : Point, r.cast w = some p → onWall w p) := by
  constructor
  · intro p
    unfold Ray.cast
    rw [if_neg h]
    by_cases hv : 0 ≤ tParam r w ∧ tParam r w ≤ 1 ∧ 0 ≤ uParam r w
    · rw [if_pos hv]
      constructor
      · intro hp
        exact ⟨hv.1, hv.2.1, hv.2.2, (Option.some_inj.mp hp).symm⟩
      · intro hp
        exact congrArg some hp.2.2.2.symm
    · rw [if_neg hv]
      constructor
      · intro hp
        exact absurd hp (by simp)
      · intro hp
        exact absurd ⟨hp.1, hp.2.1, hp.2.2.1⟩ hv
  · intro p hp
    unfold Ray.cast at hp
    rw [if_neg h] at hp
    by_cases hv : 0 ≤ tParam r w ∧ tParam r w ≤ 1 ∧ 0 ≤ uParam r w
    · rw [if_pos hv] at hp
      exact ⟨tParam r w, hv.1, hv.2.1, (Option.some_inj.mp hp).symm⟩
    · rw [if_neg hv] at hp
      exact absurd hp (by simp)

/-- Witness for C3: a concrete ray pointing east from (10,10) hits the vertical
wall x = 60 at (60, 10); the determinant is -100 ≠ 0. -/
theorem cast_hit_iff_example :
    den ⟨⟨10, 10⟩, ⟨1, 0⟩⟩ ⟨60, 0, 60, 100⟩ ≠ 0 ∧
      Ray.cast ⟨⟨10, 10⟩, ⟨1, 0⟩⟩ ⟨60, 0, 60, 100⟩ = some ⟨60, 10⟩ := by
  have hden : den ⟨⟨10, 10⟩, ⟨1, 0⟩⟩ ⟨60, 0, 60, 100⟩ = -100 := by
    norm_num [den]
  have ht : tParam ⟨⟨10, 10⟩, ⟨1, 0⟩⟩ ⟨60, 0, 60, 100⟩ = 1 / 10 := by
    norm_num [tParam, den]
  have hu : uParam ⟨⟨10, 10⟩, ⟨1, 0⟩⟩ ⟨60, 0, 60, 100⟩ = 50 := by
    norm_num [uParam, den]
  have hne : den ⟨⟨10, 10⟩, ⟨1, 0⟩⟩ ⟨60, 0, 60, 100⟩ ≠ 0 := by
    rw [hden]; norm_num
  refine ⟨hne, ?_⟩
  have := (cast_hit_iff ⟨⟨10, 10⟩, ⟨1, 0⟩⟩ ⟨60, 0, 60, 100⟩ hne).1 ⟨60, 10⟩
  refine this.mpr ?_
  rw [ht, hu]
  norm_num [Point.mk.injEq]

lemma numRays_eq : NUM_RAYS = 7200 := by
  unfold NUM_RAYS ANGLE_STEP_DEG
  rw [show (360 : ℝ) / 0.05 = ((7200 : ℕ) : ℝ) by norm_num]
  rw [Int.floor_natCast]
  rfl

lemma angleStepRad_pos : 0 < ANGLE_STEP_RAD := by
  norm_num [ANGLE_STEP_RAD, ANGLE_STEP_DEG, PI_CONST]

lemma truncToZero_eq (x : ℝ) (n : ℤ) (h0 : 0 ≤ x) (h1 : (n : ℝ) ≤ x)
    (h2 : x < n + 1) : truncToZero x = n := by
  unfold truncToZero
  rw [if_pos h0]
  exact Int.floor_eq_iff.mpr ⟨h1, by exact_mod_cast h2⟩

lemma not_onSeg_of_cross_ne (x y : ℤ) (w : Segment)
    (h : ((x : ℝ) - w.x1) * (w.y2 - w.y1) - ((y : ℝ) - w.y1) * (w.x2 - w.x1) ≠ 0) :
    ¬ isPointOnSegment x y w :=
  fun hc => hc.1 (abs_pos.mpr h)

lemma hitDistance_none (ox oy : ℝ) : hitDistance ox oy none = ⊤ := rfl

lemma hitDistance_some (ox oy : ℝ) (p : Point) :
    hitDistance ox oy (some p) = ((hypot (p.x - ox) (p.y - oy) : ℝ) : WithTop ℝ) := rfl

lemma traceRayWalls_abort (r : Ray) (ox oy : ℝ) :
    ∀ walls : List Segment,
      (∃ w ∈ walls, isPointOnSegment (truncToZero ox) (truncToZero oy) w) →
      ∀ c, traceRayWalls r ox oy walls c = none := by
  intro walls
  induction walls with
  | nil =>
    rintro ⟨w, hw, -⟩
    simp at hw
  | cons w ws ih =>
    rintro ⟨w2, hm, hseg⟩ c
    simp only [traceRayWalls]
    by_cases hw : isPointOnSegment (truncToZero ox) (truncToZero oy) w
    · rw [if_pos hw]
    · rw [if_neg hw]
      rcases List.mem_cons.mp hm with rfl | hm2
      · exact absurd hseg hw
      · exact ih ⟨w2, hm2, hseg⟩ _

lemma traceRaysGo_abort (walls : List Segment) (ox oy : ℝ)
    (h : ∃ w ∈ walls, isPointOnSegment (truncToZero ox) (truncToZero oy) w) :
    ∀ l, traceRaysGo walls ox oy l = [] := by
  intro l
  cases l with
  | nil => rfl
  | cons a rest =>
    simp only [traceRaysGo]
    rw [traceRayWalls_abort (rayAt ox oy a) ox oy walls h ⊤]

lemma traceRayWalls_spec (r : Ray) (ox oy : ℝ) :
    ∀ walls : List Segment,
      (∀ w ∈ walls, ¬ isPointOnSegment (truncToZero ox) (truncToZero oy) w) →
      ∀ c : WithTop ℝ, ∃ dmin, traceRayWalls r ox oy walls c = some dmin ∧
        dmin ≤ c ∧
        (∀ w ∈ walls, dmin ≤ hitDistance ox oy (r.cast w)) ∧
        (dmin = c ∨ ∃ w ∈ walls, hitDistance ox oy (r.cast w) = dmin) := by
  intro walls
  induction walls with
  | nil =>
    intro _ c
    exact ⟨c, rfl, le_rfl, by simp, Or.inl rfl⟩
  | cons w ws ih =>
    intro h c
    have hw : ¬ isPointOnSegment (truncToZero ox) (truncToZero oy) w :=
      h w (List.mem_cons_self w ws)
    have hws : ∀ w2 ∈ ws, ¬ isPointOnSegment (truncToZero ox) (truncToZero oy) w2 :=
      fun w2 hm => h w2 (List.mem_cons_of_mem w hm)
    obtain ⟨dmin, heq, hle, hall, hcase⟩ :=
      ih hws (if hitDistance ox oy (r.cast w) < c then hitDistance ox oy (r.cast w) else c)
    refine ⟨dmin, ?_, ?_, ?_, ?_⟩
    · simp only [traceRayWalls]
      rw [if_neg hw]
      exact heq
    · refine le_trans hle ?_
      by_cases hdc : hitDistance ox oy (r.cast w) < c
      · rw [if_pos hdc]; exact le_of_lt hdc
      · rw [if_neg hdc]
    · intro w2 hm
      rcases List.mem_cons.mp hm with rfl | hm2
      · refine le_trans hle ?_
        by_cases hdc : hitDistance ox oy (r.cast w2) < c
        · rw [if_pos hdc]
        · rw [if_neg hdc]; exact not_lt.mp hdc
      · exact hall w2 hm2
    · rcases hcase with hcc | ⟨w2, hm2, hval⟩
      · by_cases hdc : hitDistance ox oy (r.cast w) < c
        · rw [if_pos hdc] at hcc
          exact Or.inr ⟨w, List.mem_cons_self w ws, hcc.symm⟩
        · rw [if_neg hdc] at hcc
          exact Or.inl hcc
      · exact Or.inr ⟨w2, List.mem_cons_of_mem w hm2, hval⟩

lemma traceRaysGo_no_abort (walls : List Segment) (ox oy : ℝ)
    (h : ∀ w ∈ walls, ¬ isPointOnSegment (truncToZero ox) (truncToZero oy) w) :
    ∀ l : List ℝ, (traceRaysGo walls ox oy l).map Prod.fst = l ∧
      ∀ ad ∈ traceRaysGo walls ox oy l,
        traceRayWalls (rayAt ox oy ad.1) ox oy walls ⊤ = some ad.2 := by
  intro l
  induction l with
  | nil => exact ⟨rfl, by simp [traceRaysGo]⟩
  | cons a rest ih =>
    obtain ⟨dmin, heq, -, -, -⟩ := traceRayWalls_spec (rayAt ox oy a) ox oy walls h ⊤
    constructor
    · simp only [traceRaysGo]
      rw [heq]
      simp only [List.map_cons, ih.1]
    · intro ad had
      simp only [traceRaysGo] at had
      rw [heq] at had
      rcases List.mem_cons.mp had with rfl | hm
      · simpa using heq
      · exact ih.2 ad hm

lemma sweepAngles_cons : ∃ l, sweepAngles = (0 : ℝ) :: l := by
  refine ⟨((List.range 7199).map Nat.succ).map (fun i : ℕ => (i : ℝ) * ANGLE_STEP_RAD), ?_⟩
  unfold sweepAngles
  rw [numRays_eq, show (7200 : ℕ) = 7199 + 1 from rfl, List.range_succ_eq_map]
  simp

lemma traceRays_empty_iff (walls : List Segment) (ox oy : ℝ) :
    traceRays walls ox oy = [] ↔
      ∃ w ∈ walls, isPointOnSegment (truncToZero ox) (truncToZero oy) w := by
  constructor
  · intro hempty
    by_contra hno
    push_neg at hno
    obtain ⟨l, hl⟩ := sweepAngles_cons
    obtain ⟨dmin, heq, -, -, -⟩ := traceRayWalls_spec (rayAt ox oy 0) ox oy walls hno ⊤
    unfold traceRays at hempty
    rw [hl] at hempty
    simp only [traceRaysGo] at hempty
    rw [heq] at hempty
    simp at hempty
  · intro hsome
    exact traceRaysGo_abort walls ox oy hsome sweepAngles

lemma truncToZero_450 : truncToZero (450 : ℝ) = 450 :=
  truncToZero_eq 450 450 (by norm_num) (by norm_num) (by norm_num)

lemma onSeg_450 : isPointOnSegment 450 450 (⟨400, 400, 500, 500⟩ : Segment) := by
  constructor
  · push_cast
    norm_num
  · push_cast
    norm_num [min_def, max_def]

/-- C6: if the (truncated) origin lies on some wall of the scene according to
Scene::isPointOnSegment, the sweep aborts immediately: traceRays performs no
drawRay invocation at all, for any angle. -/
theorem traceRays_abort_on_wall (walls : List Segment) (ox oy : ℝ)
    (h : ∃ w ∈ walls, isPointOnSegment (truncToZero ox) (truncToZero oy) w) :
    traceRays walls ox oy = [] :=
  traceRaysGo_abort walls ox oy h sweepAngles

/-- Witness for C6: the origin (450, 450) lies on the first scene wall
(400,400)-(500,500), and the whole sweep for that origin draws nothing. -/
theorem traceRays_abort_on_wall_example :
    (∃ w ∈ sceneWalls, isPointOnSegment (truncToZero (450 : ℝ)) (truncToZero (450 : ℝ)) w) ∧
      traceRays sceneWalls 450 450 = [] := by
  have hmem : ∃ w ∈ sceneWalls,
      isPointOnSegment (truncToZero (450 : ℝ)) (truncToZero (450 : ℝ)) w := by
    refine ⟨⟨400, 400, 500, 500⟩, by simp [sceneWalls], ?_⟩
    rw [truncToZero_450]
    exact onSeg_450
  exact ⟨hmem, traceRays_abort_on_wall sceneWalls 450 450 hmem⟩

/-- C10: the sweep aborts exactly when the origin coordinates, truncated toward
zero to integers, satisfy Scene::isPointOnSegment for some wall; that predicate
is exact collinearity plus the bounding-box test; and two origins with the same
truncation behave identically with respect to the abort. -/
theorem abort_iff_truncated_origin (walls : List Segment) (ox oy : ℝ) :
    (traceRays walls ox oy = [] ↔
      ∃ w ∈ walls, isPointOnSegment (truncToZero ox) (truncToZero oy) w) ∧
    (∀ (x y : ℤ) (w : Segment), isPointOnSegment x y w ↔ collinearInBox x y w) ∧
    (∀ ox2 oy2 : ℝ, truncToZero ox = truncToZero ox2 → truncToZero oy = truncToZero oy2 →
      (traceRays walls ox oy = [] ↔ traceRays walls ox2 oy2 = [])) := by
  refine ⟨traceRays_empty_iff walls ox oy, ?_, ?_⟩
  · intro x y w
    unfold isPointOnSegment collinearInBox
    rw [not_lt, abs_nonpos_iff]
    push_neg
    tauto
  · intro ox2 oy2 hx hy
    rw [traceRays_empty_iff, traceRays_empty_iff, hx, hy]

/-- Witness for C10: the non-integer origin (450.7, 450.2) is not exactly on any
scene wall, yet it truncates to (450, 450), which is on the first wall, so the
sweep aborts. -/
theorem abort_iff_truncated_origin_example :
    truncToZero (450.7 : ℝ) = 450 ∧ truncToZero (450.2 : ℝ) = 450 ∧
      traceRays sceneWalls 450.7 450.2 = [] ∧
      ∀ w ∈ sceneWalls, ¬ onSegmentReal 450.7 450.2 w := by
  have hx : truncToZero (450.7 : ℝ) = 450 :=
    truncToZero_eq _ 450 (by norm_num) (by norm_num) (by norm_num)
  have hy : truncToZero (450.2 : ℝ) = 450 :=
    truncToZero_eq _ 450 (by norm_num) (by norm_num) (by norm_num)
  refine ⟨hx, hy, ?_, ?_⟩
  · refine (abort_iff_truncated_origin sceneWalls 450.7 450.2).1.mpr ?_
    refine ⟨⟨400, 400, 500, 500⟩, by simp [sceneWalls], ?_⟩
    rw [hx, hy]
    exact onSeg_450
  · intro w hw
    simp only [sceneWalls, List.mem_cons, List.not_mem_nil, or_false] at hw
    rcases hw with rfl | rfl | rfl | rfl | rfl | rfl | rfl <;>
      · intro hc
        revert hc
        norm_num [onSegmentReal]

lemma rayAt_zero (x y : ℝ) : rayAt x y 0 = ⟨⟨x, y⟩, ⟨1, 0⟩⟩ := by
  unfold rayAt
  rw [Real.cos_zero, Real.sin_zero]

lemma truncToZero_10 : truncToZero (10 : ℝ) = 10 :=
  truncToZero_eq 10 10 (by norm_num) (by norm_num) (by norm_num)

lemma notOnSeg_wall60 : ¬ isPointOnSegment 10 10 (⟨60, 0, 60, 100⟩ : Segment) :=
  not_onSeg_of_cross_ne _ _ _ (by push_cast; norm_num)

lemma notOnSeg_wall110 : ¬ isPointOnSegment 10 10 (⟨110, 0, 110, 100⟩ : Segment) :=
  not_onSeg_of_cross_ne _ _ _ (by push_cast; norm_num)

lemma cast_east_hits_wall60 :
    Ray.cast ⟨⟨10, 10⟩, ⟨1, 0⟩⟩ ⟨60, 0, 60, 100⟩ = some ⟨60, 10⟩ := by
  have hden : den ⟨⟨10, 10⟩, ⟨1, 0⟩⟩ ⟨60, 0, 60, 100⟩ = -100 := by norm_num [den]
  have ht : tParam ⟨⟨10, 10⟩, ⟨1, 0⟩⟩ ⟨60, 0, 60, 100⟩ = 1 / 10 := by
    norm_num [tParam, den]
  have hu : uParam ⟨⟨10, 10⟩, ⟨1, 0⟩⟩ ⟨60, 0, 60, 100⟩ = 50 := by
    norm_num [uParam, den]
  unfold Ray.cast
  rw [if_neg (show ¬ den ⟨⟨10, 10⟩, ⟨1, 0⟩⟩ ⟨60, 0, 60, 100⟩ = 0 by rw [hden]; norm_num)]
  rw [if_pos (by rw [ht, hu]; norm_num)]
  rw [ht]
  norm_num [Point.mk.injEq]

lemma cast_east_hits_wall110 :
    Ray.cast ⟨⟨10, 10⟩, ⟨1, 0⟩⟩ ⟨110, 0, 110, 100⟩ = some ⟨110, 10⟩ := by
  have hden : den ⟨⟨10, 10⟩, ⟨1, 0⟩⟩ ⟨110, 0, 110, 100⟩ = -100 := by norm_num [den]
  have ht : tParam ⟨⟨10, 10⟩, ⟨1, 0⟩⟩ ⟨110, 0, 110, 100⟩ = 1 / 10 := by
    norm_num [tParam, den]
  have hu : uParam ⟨⟨10, 10⟩, ⟨1, 0⟩⟩ ⟨110, 0, 110, 100⟩ = 100 := by
    norm_num [uParam, den]
  unfold Ray.cast
  rw [if_neg (show ¬ den ⟨⟨10, 10⟩, ⟨1, 0⟩⟩ ⟨110, 0, 110, 100⟩ = 0 by rw [hden]; norm_num)]
  rw [if_pos (by rw [ht, hu]; norm_num)]
  rw [ht]
  norm_num [Point.mk.injEq]

lemma hitDistance_east60 :
    hitDistance 10 10 (Ray.cast ⟨⟨10, 10⟩, ⟨1, 0⟩⟩ ⟨60, 0, 60, 100⟩)
      = ((50 : ℝ) : WithTop ℝ) := by
  have h : hypot ((60 : ℝ) - 10) ((10 : ℝ) - 10) = 50 := by
    unfold hypot
    rw [show ((60 : ℝ) - 10) * ((60 : ℝ) - 10) + ((10 : ℝ) - 10) * ((10 : ℝ) - 10)
        = 50 ^ 2 by norm_num]
    exact Real.sqrt_sq (by norm_num)
  rw [cast_east_hits_wall60]
  show ((hypot ((60 : ℝ) - 10) ((10 : ℝ) - 10) : ℝ) : WithTop ℝ) = ((50 : ℝ) : WithTop ℝ)
  rw [h]

lemma hitDistance_east110 :
    hitDistance 10 10 (Ray.cast ⟨⟨10, 10⟩, ⟨1, 0⟩⟩ ⟨110, 0, 110, 100⟩)
      = ((100 : ℝ) : WithTop ℝ) := by
  have h : hypot ((110 : ℝ) - 10) ((10 : ℝ) - 10) = 100 := by
    unfold hypot
    rw [show ((110 : ℝ) - 10) * ((110 : ℝ) - 10) + ((10 : ℝ) - 10) * ((10 : ℝ) - 10)
        = 100 ^ 2 by norm_num]
    exact Real.sqrt_sq (by norm_num)
  rw [cast_east_hits_wall110]
  show ((hypot ((110 : ℝ) - 10) ((10 : ℝ) - 10) : ℝ) : WithTop ℝ) = ((100 : ℝ) : WithTop ℝ)
  rw [h]

lemma traceRayWalls_two_walls :
    traceRayWalls ⟨⟨10, 10⟩, ⟨1, 0⟩⟩ 10 10
        [⟨60, 0, 60, 100⟩, ⟨110, 0, 110, 100⟩] ⊤
      = some ((50 : ℝ) : WithTop ℝ) := by
  simp only [traceRayWalls, truncToZero_10]
  rw [if_neg notOnSeg_wall60, if_neg notOnSeg_wall110, hitDistance_east60,
    hitDistance_east110]
  rw [if_pos (WithTop.coe_lt_top (50 : ℝ))]
  rw [if_neg (show ¬ ((100 : ℝ) : WithTop ℝ) < ((50 : ℝ) : WithTop ℝ) by
    rw [WithTop.coe_lt_coe]; norm_num)]

/-- C1: every (angle, distance) pair the sweep hands to the rasterizer carries
the minimum Euclidean distance over all walls: it is a lower bound of every
wall's hit distance, it is either the infinite sentinel or attained at a wall
with a genuine (non-sentinel) hit, a genuine hit on any wall forces a finite
distance (the sentinel never wins against a finite hit), and if every wall
misses the distance handed over is the infinite sentinel distance. -/
theorem traceRays_nearest_hit (walls : List Segment) (ox oy : ℝ)
    (h : ∀ w ∈ walls, ¬ isPointOnSegment (truncToZero ox) (truncToZero oy) w) :
    ∀ ad ∈ traceRays walls ox oy,
      (∀ w ∈ walls, ad.2 ≤ hitDistance ox oy ((rayAt ox oy ad.1).cast w)) ∧
      (ad.2 = ⊤ ∨ ∃ w ∈ walls, (rayAt ox oy ad.1).cast w ≠ none ∧
        hitDistance ox oy ((rayAt ox oy ad.1).cast w) = ad.2) ∧
      ((∃ w ∈ walls, (rayAt ox oy ad.1).cast w ≠ none) → ad.2 ≠ ⊤) ∧
      ((∀ w ∈ walls, (rayAt ox oy ad.1).cast w = none) → ad.2 = ⊤) := by
  intro ad had
  have hgo := (traceRaysGo_no_abort walls ox oy h sweepAngles).2 ad had
  obtain ⟨dmin, heq, hle, hall, hcase⟩ :=
    traceRayWalls_spec (rayAt ox oy ad.1) ox oy walls h ⊤
  rw [heq] at hgo
  obtain rfl := Option.some_inj.mp hgo
  refine ⟨hall, ?_, ?_, ?_⟩
  · rcases hcase with htop | ⟨w, hm, hvd⟩
    · exact Or.inl htop
    · by_cases hnone : (rayAt ox oy ad.1).cast w = none
      · rw [hnone, hitDistance_none] at hvd
        exact Or.inl hvd.symm
      · exact Or.inr ⟨w, hm, hnone, hvd⟩
  · rintro ⟨w, hm, hnone⟩ htop
    have hlw := hall w hm
    rw [htop] at hlw
    have h2 : hitDistance ox oy ((rayAt ox oy ad.1).cast w) = ⊤ := top_le_iff.mp hlw
    cases hc : (rayAt ox oy ad.1).cast w with
    | none => exact hnone hc
    | some p =>
      rw [hc, hitDistance_some] at h2
      exact WithTop.coe_ne_top h2
  · intro hmiss
    rcases hcase with htop | ⟨w, hm, hvd⟩
    · exact htop
    · rw [hmiss w hm, hitDistance_none] at hvd
      exact hvd.symm

/-- Witness for C1: origin (10,10), ray at angle 0, and two parallel vertical
walls at distances 50 and 100 along the ray's axis; the sweep's first drawRay
call carries distance 50, which is a lower bound of both wall distances. -/
theorem traceRays_nearest_hit_example :
    ((0 : ℝ), ((50 : ℝ) : WithTop ℝ)) ∈
        traceRays [⟨60, 0, 60, 100⟩, ⟨110, 0, 110, 100⟩] 10 10 ∧
      ((50 : ℝ) : WithTop ℝ) ≤
        hitDistance 10 10 ((rayAt 10 10 0).cast ⟨110, 0, 110, 100⟩) := by
  have hno : ∀ w ∈ ([⟨60, 0, 60, 100⟩, ⟨110, 0, 110, 100⟩] : List Segment),
      ¬ isPointOnSegment (truncToZero (10 : ℝ)) (truncToZero (10 : ℝ)) w := by
    intro w hw
    rw [truncToZero_10]
    simp only [List.mem_cons, List.not_mem_nil, or_false] at hw
    rcases hw with rfl | rfl
    · exact notOnSeg_wall60
    · exact notOnSeg_wall110
  have hmem : ((0 : ℝ), ((50 : ℝ) : WithTop ℝ)) ∈
      traceRays [⟨60, 0, 60, 100⟩, ⟨110, 0, 110, 100⟩] 10 10 := by
    obtain ⟨l, hl⟩ := sweepAngles_cons
    unfold traceRays
    rw [hl]
    simp only [traceRaysGo]
    rw [rayAt_zero, traceRayWalls_two_walls]
    exact List.mem_cons_self _ _
  have hmin := traceRays_nearest_hit [⟨60, 0, 60, 100⟩, ⟨110, 0, 110, 100⟩] 10 10 hno
    ((0 : ℝ), ((50 : ℝ) : WithTop ℝ)) hmem
  exact ⟨hmem, hmin.1 ⟨110, 0, 110, 100⟩ (by simp)⟩

/-- C8 counterexample: for the origin (450, 450), which lies on the first scene
wall, the sweep does not cast floor(360/s) = NUM_RAYS rays; it aborts during the
first ray and performs zero drawRay calls. -/
theorem sweep_count_counterexample :
    ¬ ((traceRays sceneWalls 450 450).length = NUM_RAYS) := by
  have habort : traceRays sceneWalls 450 450 = [] := by
    unfold traceRays
    refine traceRaysGo_abort sceneWalls 450 450 ?_ sweepAngles
    refine ⟨⟨400, 400, 500, 500⟩, by simp [sceneWalls], ?_⟩
    rw [truncToZero_450]
    exact onSeg_450
  rw [habort, numRays_eq]
  norm_num

/-- C8 (amended): for every origin whose truncated coordinates lie on no wall,
the sweep performs exactly NUM_RAYS = floor(360 / 0.05) = 7200 drawRay calls,
the i-th at angle i * ANGLE_STEP_RAD, all angles distinct and within
[0, 360 degrees) expressed in radians; for an origin on a wall the sweep aborts
with no rays (see the counterexample). -/
theorem sweep_count_amended (walls : List Segment) (ox oy : ℝ)
    (h : ∀ w ∈ walls, ¬ isPointOnSegment (truncToZero ox) (truncToZero oy) w) :
    (traceRays walls ox oy).length = NUM_RAYS ∧
      NUM_RAYS = 7200 ∧
      (traceRays walls ox oy).map Prod.fst
        = (List.range NUM_RAYS).map (fun i : ℕ => (i : ℝ) * ANGLE_STEP_RAD) ∧
      ((traceRays walls ox oy).map Prod.fst).Nodup ∧
      ∀ a ∈ (traceRays walls ox oy).map Prod.fst,
        0 ≤ a ∧ a < 360 * (PI_CONST / 180) := by
  have hmapfst : (traceRays walls ox oy).map Prod.fst = sweepAngles :=
    (traceRaysGo_no_abort walls ox oy h sweepAngles).1
  have hinj : Function.Injective (fun i : ℕ => (i : ℝ) * ANGLE_STEP_RAD) := by
    intro i j hij
    have hcast := mul_right_cancel₀ (ne_of_gt angleStepRad_pos) hij
    exact_mod_cast hcast
  refine ⟨?_, numRays_eq, ?_, ?_, ?_⟩
  · calc (traceRays walls ox oy).length
        = ((traceRays walls ox oy).map Prod.fst).length := (List.length_map _ _).symm
      _ = sweepAngles.length := by rw [hmapfst]
      _ = NUM_RAYS := by unfold sweepAngles; rw [List.length_map, List.length_range]
  · rw [hmapfst]
    rfl
  · rw [hmapfst]
    exact List.Nodup.map hinj (List.nodup_range NUM_RAYS)
  · intro a ha
    rw [hmapfst] at ha
    simp only [sweepAngles, List.mem_map, List.mem_range] at ha
    obtain ⟨i, hi, rfl⟩ := ha
    constructor
    · exact mul_nonneg (Nat.cast_nonneg i) (le_of_lt angleStepRad_pos)
    · have hi7 : (i : ℝ) < 7200 := by
        rw [numRays_eq] at hi
        exact_mod_cast hi
      calc (i : ℝ) * ANGLE_STEP_RAD < 7200 * ANGLE_STEP_RAD :=
            mul_lt_mul_of_pos_right hi7 angleStepRad_pos
        _ = 360 * (PI_CONST / 180) := by
            unfold ANGLE_STEP_RAD ANGLE_STEP_DEG
            ring

/-- Witness for C8 (amended): with an empty wall list and origin (0,0) no wall
contains the origin, and the sweep performs exactly NUM_RAYS drawRay calls. -/
theorem sweep_count_amended_example :
    (traceRays [] (0 : ℝ) (0 : ℝ)).length = NUM_RAYS :=
  (sweep_count_amended [] 0 0 (by simp)).1

lemma alphaOf_zero : alphaOf 0 = 255 := by
  unfold alphaOf
  rw [show -kConst * 0 = 0 by ring, Real.exp_zero]
  rw [show max 0 (min 1 (1 : ℝ)) * 255 = ((255 : ℕ) : ℝ) by norm_num]
  rw [Int.floor_natCast]
  rfl

lemma drawRayX_100 : drawRayX 100.5 0 0 = 100 := by
  unfold drawRayX
  rw [show (100.5 : ℝ) + ((0 : ℕ) : ℝ) * Real.cos 0 = 100.5 by norm_num]
  exact truncToZero_eq _ 100 (by norm_num) (by norm_num) (by norm_num)

lemma drawRayY_100 : drawRayY 100.5 0 0 = 100 := by
  unfold drawRayY
  rw [show (100.5 : ℝ) + ((0 : ℕ) : ℝ) * Real.sin 0 = 100.5 by norm_num]
  exact truncToZero_eq _ 100 (by norm_num) (by norm_num) (by norm_num)

lemma drawRayX_200 : drawRayX 200.5 0 0 = 200 := by
  unfold drawRayX
  rw [show (200.5 : ℝ) + ((0 : ℕ) : ℝ) * Real.cos 0 = 200.5 by norm_num]
  exact truncToZero_eq _ 200 (by norm_num) (by norm_num) (by norm_num)

lemma drawRayY_300 : drawRayY 300.5 0 0 = 300 := by
  unfold drawRayY
  rw [show (300.5 : ℝ) + ((0 : ℕ) : ℝ) * Real.sin 0 = 300.5 by norm_num]
  exact truncToZero_eq _ 300 (by norm_num) (by norm_num) (by norm_num)

/-- C4: every pixel Renderer::drawRay writes satisfies 0 ≤ x < SCREEN_WIDTH and
0 ≤ y < SCREEN_HEIGHT, for every origin, angle and maximum draw distance
(including the infinite sentinel distance), and a target pixel outside those
bounds terminates the beam: no pixel is written at or after such a step. -/
theorem drawRay_within_bounds (x1 y1 angle : ℝ) (distance : WithTop ℝ) :
    (∀ p : ℤ × ℤ, drawRayWritesPixel x1 y1 angle distance p →
      0 ≤ p.1 ∧ p.1 < SCREEN_WIDTH ∧ 0 ≤ p.2 ∧ p.2 < SCREEN_HEIGHT) ∧
    (∀ d : ℕ, (drawRayX x1 angle d < 0 ∨ SCREEN_WIDTH ≤ drawRayX x1 angle d ∨
        drawRayY y1 angle d < 0 ∨ SCREEN_HEIGHT ≤ drawRayY y1 angle d) →
      ∀ e : ℕ, d ≤ e → ¬ drawRayWritesStep x1 y1 angle distance e) := by
  constructor
  · rintro p ⟨d, hstep, rfl⟩
    have hok := hstep d le_rfl
    unfold drawRayStepFails at hok
    push_neg at hok
    exact ⟨le_of_lt hok.2.2.1, hok.2.2.2.1, le_of_lt hok.2.2.2.2.1, hok.2.2.2.2.2⟩
  · intro d hout e hde hws
    refine hws d hde ?_
    unfold drawRayStepFails
    rcases hout with hx | hx | hy | hy
    · exact Or.inr (Or.inr (Or.inl (le_of_lt hx)))
    · exact Or.inr (Or.inr (Or.inr (Or.inl hx)))
    · exact Or.inr (Or.inr (Or.inr (Or.inr (Or.inl (le_of_lt hy)))))
    · exact Or.inr (Or.inr (Or.inr (Or.inr (Or.inr hy))))

/-- Witness for C4: from origin (100.5, 100.5) at angle 0 with unbounded
distance, the first loop step writes pixel (100, 100), which is within
bounds. -/
theorem drawRay_within_bounds_example :
    drawRayWritesPixel 100.5 100.5 0 ⊤ (100, 100) ∧
      0 ≤ (100 : ℤ) ∧ (100 : ℤ) < SCREEN_WIDTH ∧
      0 ≤ (100 : ℤ) ∧ (100 : ℤ) < SCREEN_HEIGHT := by
  have hwr : drawRayWritesPixel 100.5 100.5 0 ⊤ (100, 100) := by
    refine ⟨0, ?_, ?_⟩
    · intro e he
      obtain rfl := Nat.le_zero.mp he
      unfold drawRayStepFails
      push_neg
      refine ⟨le_top, ?_, ?_, ?_, ?_, ?_⟩
      · rw [show ((0 : ℕ) : ℝ) = 0 by norm_num, alphaOf_zero]
        norm_num
      · rw [drawRayX_100]; norm_num
      · rw [drawRayX_100]; unfold SCREEN_WIDTH; norm_num
      · rw [drawRayY_100]; norm_num
      · rw [drawRayY_100]; unfold SCREEN_HEIGHT; norm_num
    · rw [drawRayX_100, drawRayY_100]
  exact ⟨hwr, (drawRay_within_bounds 100.5 100.5 0 ⊤).1 (100, 100) hwr⟩

/-- C9: Renderer::drawRay never writes a pixel in column 0 or row 0 (its bounds
test breaks out already at drawX <= 0 or drawY <= 0), and a target pixel with
x = 0 or y = 0 terminates the beam: no pixel is written at or after such a
step, although those coordinates are inside the buffer bounds. -/
theorem drawRay_skips_zero_row_col (x1 y1 angle : ℝ) (distance : WithTop ℝ) :
    (∀ p : ℤ × ℤ, drawRayWritesPixel x1 y1 angle distance p → 0 < p.1 ∧ 0 < p.2) ∧
    (∀ d : ℕ, (drawRayX x1 angle d = 0 ∨ drawRayY y1 angle d = 0) →
      ∀ e : ℕ, d ≤ e → ¬ drawRayWritesStep x1 y1 angle distance e) := by
  constructor
  · rintro p ⟨d, hstep, rfl⟩
    have hok := hstep d le_rfl
    unfold drawRayStepFails at hok
    push_neg at hok
    exact ⟨hok.2.2.1, hok.2.2.2.2.1⟩
  · intro d hzero e hde hws
    refine hws d hde ?_
    unfold drawRayStepFails
    rcases hzero with hx | hy
    · exact Or.inr (Or.inr (Or.inl (le_of_eq hx)))
    · exact Or.inr (Or.inr (Or.inr (Or.inr (Or.inl (le_of_eq hy)))))

/-- Witness for C9: from origin (200.5, 300.5) at angle 0 the first step writes
pixel (200, 300), and the claim's theorem yields strictly positive
coordinates. -/
theorem drawRay_skips_zero_row_col_example :
    drawRayWritesPixel 200.5 300.5 0 ⊤ (200, 300) ∧
      0 < (200 : ℤ) ∧ 0 < (300 : ℤ) := by
  have hwr : drawRayWritesPixel 200.5 300.5 0 ⊤ (200, 300) := by
    refine ⟨0, ?_, ?_⟩
    · intro e he
      obtain rfl := Nat.le_zero.mp he
      unfold drawRayStepFails
      push_neg
      refine ⟨le_top, ?_, ?_, ?_, ?_, ?_⟩
      · rw [show ((0 : ℕ) : ℝ) = 0 by norm_num, alphaOf_zero]
        norm_num
      · rw [drawRayX_200]; norm_num
      · rw [drawRayX_200]; unfold SCREEN_WIDTH; norm_num
      · rw [drawRayY_300]; norm_num
      · rw [drawRayY_300]; unfold SCREEN_HEIGHT; norm_num
    · rw [drawRayX_200, drawRayY_300]
  exact ⟨hwr, (drawRay_skips_zero_row_col 200.5 300.5 0 ⊤).1 (200, 300) hwr⟩

/-- C7: the 8-bit beam opacity is monotonically non-increasing in the distance,
it reaches exactly 0 at some finite step, and once the opacity of a step is 0
the drawRay loop stops: no pixel is written at or after that step. -/
theorem attenuation_monotone_zero :
    (∀ d1 d2 : ℝ, d1 ≤ d2 → alphaOf d2 ≤ alphaOf d1) ∧
    (∃ d : ℕ, alphaOf d = 0) ∧
    (∀ (x1 y1 angle : ℝ) (distance : WithTop ℝ) (d : ℕ), alphaOf d = 0 →
      ∀ e : ℕ, d ≤ e → ¬ drawRayWritesStep x1 y1 angle distance e) := by
  refine ⟨?_, ?_, ?_⟩
  · intro d1 d2 h12
    have hexp : Real.exp (-kConst * d2) ≤ Real.exp (-kConst * d1) := by
      apply Real.exp_le_exp.mpr
      unfold kConst
      linarith
    have hmax : max 0 (min 1 (Real.exp (-kConst * d2)))
        ≤ max 0 (min 1 (Real.exp (-kConst * d1))) :=
      max_le_max le_rfl (min_le_min le_rfl hexp)
    have hmul := mul_le_mul_of_nonneg_right hmax (show (0 : ℝ) ≤ 255 by norm_num)
    exact Int.toNat_le_toNat (Int.floor_le_floor hmul)
  · refine ⟨1200, ?_⟩
    have h6 : (255 : ℝ) < Real.exp 6 := by
      have h1 : (2.7182818283 : ℝ) < Real.exp 1 := Real.exp_one_gt_d9
      have h2 : ((2.7182818283 : ℝ)) ^ (6 : ℕ) < (Real.exp 1) ^ (6 : ℕ) :=
        pow_lt_pow_left h1 (by norm_num) (by norm_num)
      have h3 : Real.exp 6 = (Real.exp 1) ^ (6 : ℕ) := by
        rw [← Real.exp_nat_mul]
        norm_num
      have h4 : (255 : ℝ) < (2.7182818283 : ℝ) ^ (6 : ℕ) := by norm_num
      linarith
    have hlt : Real.exp (-kConst * ((1200 : ℕ) : ℝ)) < 1 / 255 := by
      rw [show -kConst * ((1200 : ℕ) : ℝ) = -6 by unfold kConst; push_cast; ring]
      rw [Real.exp_neg, show (1 : ℝ) / 255 = (255 : ℝ)⁻¹ by norm_num]
      exact inv_lt_inv_of_lt (by norm_num) h6
    unfold alphaOf
    have hmin : min 1 (Real.exp (-kConst * ((1200 : ℕ) : ℝ)))
        = Real.exp (-kConst * ((1200 : ℕ) : ℝ)) :=
      min_eq_right (le_of_lt (lt_trans hlt (by norm_num)))
    have hmax : max 0 (Real.exp (-kConst * ((1200 : ℕ) : ℝ)))
        = Real.exp (-kConst * ((1200 : ℕ) : ℝ)) :=
      max_eq_right (Real.exp_pos _).le
    rw [hmin, hmax]
    have hfloor : ⌊Real.exp (-kConst * ((1200 : ℕ) : ℝ)) * 255⌋ = 0 := by
      rw [Int.floor_eq_zero_iff]
      constructor
      · exact mul_nonneg (Real.exp_pos _).le (by norm_num)
      · exact (lt_div_iff (show (0 : ℝ) < 255 by norm_num)).mp hlt
    rw [hfloor]
    rfl
  · intro x1 y1 angle distance d hd e hde hws
    refine hws d hde ?_
    unfold drawRayStepFails
    exact Or.inr (Or.inl hd)

/-- Witness for C7: applying the monotonicity part at distances 0 ≤ 1. -/
theorem attenuation_monotone_zero_example : alphaOf 1 ≤ alphaOf 0 :=
  attenuation_monotone_zero.1 0 1 (by norm_num)

/-- C5: the code contradicts the claim: when the frame-buffer lock fails at the
start of a frame, Application::render does not abort the frame; only the clear
is skipped, while the ray sweep and the wall outlines are still drawn through
the stale (or null) pixel buffer and endFrame still presents the frame. -/
theorem render_lockFailure_still_draws :
    (renderFrame false).cleared = false ∧ (renderFrame false).raysDrawn = true ∧
      (renderFrame false).wallsDrawn = true ∧ (renderFrame false).presented = true :=
  ⟨rfl, rfl, rfl, rfl⟩

end RayCasting
